import Mathlib

/-!
# Iconner — verification of the naming / library / maintenance engine

Shallow embedding of the Python sources `Gen_name.py`, `Gen2.py` and the
maintenance state machine of `Gen1.py`.  Filenames are embedded as
`List Char`; directories as lists of file records; paths inside a directory
are identified with the filename within it.

The Python code delegates a few primitives to its standard library; they are
modelled as follows, faithfully on the inputs exercised here:

* `unicodedata.normalize("NFC", s)` — NFC normalization, modelled on ASCII
  plus the Latin vowels with acute accents (the spec's `café` examples):
  `unicode_nfc` composes a base vowel followed by the combining acute U+0301
  into the precomposed code point, exactly as NFC does on this fragment.
* `str.casefold()` and `str.lower()` — modelled by the character map
  `charFold` (ASCII uppercase and precomposed uppercase acute vowels map to
  lowercase), on which the two Python functions agree.
* `str.strip(chars)` — `pyStrip`.
* `pathlib.PurePath.name/.stem/.suffix` — `pathName`/`pathStem`/`pathSuffix`,
  implementing CPython's rule (the suffix starts at the last dot provided
  that dot is neither the first nor the last character of the name).  The
  POSIX flavour is modelled: only `/` separates components.
* The filesystem — a directory is a `List FSFile`; `Path.exists` within a
  directory is exact-name membership (the POSIX behaviour of the underlying
  system calls); `shutil.copy2` preserves content and mtime; `Path.replace`
  moves; `Path.unlink` removes.  I/O is modelled as succeeding — every claim
  below concerns the engine's decision logic, not I/O failure paths.
-/

namespace Iconner

/-- The combining acute accent U+0301, as produced by NFD decomposition. -/
def combAcute : Char := Char.ofNat 0x301

/-- NFC primary-composite table restricted to the acute accent:
`composeAcute b = some d` iff `b` followed by U+0301 composes to `d`. -/
def composeAcute (b : Char) : Option Char :=
  match b with
  | 'a' => some 'á'
  | 'e' => some 'é'
  | 'i' => some 'í'
  | 'o' => some 'ó'
  | 'u' => some 'ú'
  | 'A' => some 'Á'
  | 'E' => some 'É'
  | 'I' => some 'Í'
  | 'O' => some 'Ó'
  | 'U' => some 'Ú'
  | _ => none

/-- Composition of a base character with a following combining mark
(restricted to the combining acute, the only mark in the modelled fragment). -/
def composePair (b m : Char) : Option Char :=
  if m = combAcute then composeAcute b else none

/-- Left-to-right NFC composition scan: `c` is the character currently under
consideration; a following combining acute merges into it. -/
def nfcAux (c : Char) : List Char → List Char
  | [] => [c]
  | m :: rest =>
    match composePair c m with
    | some d => nfcAux d rest
    | none => c :: nfcAux m rest

/-- Model of `unicodedata.normalize("NFC", s)` on the modelled fragment. -/
def unicode_nfc : List Char → List Char
  | [] => []
  | c :: rest => nfcAux c rest

/-- Model of Python's `str.casefold()` (and, on this alphabet, `str.lower()`)
at a single character: ASCII uppercase and precomposed uppercase acute vowels
map to lowercase; everything else is fixed. -/
def charFold (c : Char) : Char :=
  match c with
  | 'A' => 'a' | 'B' => 'b' | 'C' => 'c' | 'D' => 'd' | 'E' => 'e'
  | 'F' => 'f' | 'G' => 'g' | 'H' => 'h' | 'I' => 'i' | 'J' => 'j'
  | 'K' => 'k' | 'L' => 'l' | 'M' => 'm' | 'N' => 'n' | 'O' => 'o'
  | 'P' => 'p' | 'Q' => 'q' | 'R' => 'r' | 'S' => 's' | 'T' => 't'
  | 'U' => 'u' | 'V' => 'v' | 'W' => 'w' | 'X' => 'x' | 'Y' => 'y'
  | 'Z' => 'z'
  | 'Á' => 'á' | 'É' => 'é' | 'Í' => 'í' | 'Ó' => 'ó' | 'Ú' => 'ú'
  | c => c

/-- Model of `str.casefold()` on a filename. -/
def casefold (l : List Char) : List Char := l.map charFold

/-- Model of `str.lower()`.  On the modelled alphabet `str.lower()` and
`str.casefold()` are the same character-to-character map. -/
def pyLower (l : List Char) : List Char := l.map charFold

/-- `Gen_name._BAD_CHARS` / the `bad` string of `Gen2.sanitize_piece`:
characters invalid in Windows filenames. -/
def badChars : List Char := ['<', '>', ':', '"', '/', '\\', '|', '?', '*']

/-- The whitespace removed by Python's `str.strip()` (ASCII fragment). -/
def isPyWs (c : Char) : Bool :=
  c = ' ' || c = '\t' || c = '\n' || c = '\x0d' || c = '\x0b' || c = '\x0c'

/-- Python `s.strip(chars)`: remove characters satisfying `p` from both ends. -/
def pyStrip (p : Char → Bool) (l : List Char) : List Char :=
  ((l.dropWhile p).reverse.dropWhile p).reverse

/-- Model of `pathlib.PurePath.name`: the part after the last `/`. -/
def pathName (l : List Char) : List Char :=
  (l.reverse.takeWhile (· ≠ '/')).reverse

/-- Index of the last `.` of a list, if any. -/
def lastDotIdx (l : List Char) : Option Nat :=
  ((List.range l.length).filter fun i => l.getD i ' ' = '.').getLast?

/-- Model of `pathlib.PurePath.suffix`: CPython takes the substring from the
last dot of the name when that dot is neither at position 0 nor the final
character, and the empty string otherwise. -/
def pathSuffix (l : List Char) : List Char :=
  let n := pathName l
  match lastDotIdx n with
  | some i => if 0 < i ∧ i < n.length - 1 then n.drop i else []
  | none => []

/-- Model of `pathlib.PurePath.stem`: the name with the suffix removed. -/
def pathStem (l : List Char) : List Char :=
  let n := pathName l
  n.take (n.length - (pathSuffix l).length)

/-- `Gen2.IMAGE_EXTS`: the accepted image extensions. -/
def IMAGE_EXTS : List (List Char) :=
  [".png".toList, ".jpg".toList, ".jpeg".toList, ".webp".toList,
   ".bmp".toList, ".tiff".toList, ".tif".toList, ".svg".toList]

/-- `Gen2._is_image_file` on a filename (all modelled directory entries are
files, so only the extension test remains): `p.suffix.lower() in IMAGE_EXTS`. -/
def is_image_name (name : List Char) : Bool :=
  pyLower (pathSuffix name) ∈ IMAGE_EXTS

/-- The options of `Gen2.make_ico` that shape the rendered frames. -/
structure EncodeOpts where
  keep_alpha : Bool
  autocrop : Bool
  padding_mode : List Char
deriving DecidableEq, Repr

/-- Content of a modelled file: either raw image bytes (abstracted to an
identifier) or an encoded ICO container, which records the content identifier
of the source it was rendered from, the processing options, and the embedded
frame sizes. -/
inductive FileData where
  | raw : Nat → FileData
  | ico : Nat → EncodeOpts → List Int → FileData
deriving DecidableEq, Repr

/-- The content identifier carried by a file's data. -/
def FileData.id : FileData → Nat
  | .raw n => n
  | .ico n _ _ => n

/-- A file inside a modelled directory. -/
structure FSFile where
  name : List Char
  data : FileData
  mtime : Nat
deriving DecidableEq, Repr

end Iconner

namespace Iconner.GenName

open Iconner

/-- `Gen_name.sanitize_piece`: NFC-normalize, replace Windows-invalid
characters by `_`, strip whitespace, then strip dots; an empty result becomes
`"untitled"`. -/
def sanitize_piece (s : List Char) : List Char :=
  let s1 := unicode_nfc s
  let s2 := s1.map fun c => if c ∈ badChars then '_' else c
  let s3 := pyStrip (· = '.') (pyStrip isPyWs s2)
  if s3 = [] then "untitled".toList else s3

/-- `Gen_name.canonical_key`: NFC-normalize, then casefold. -/
def canonical_key (filename : List Char) : List Char :=
  casefold (unicode_nfc filename)

/-- `Gen_name.canonicalize_extension`: ensure a leading dot, sanitize and
lowercase the body, NFC-normalize. -/
def canonicalize_extension (ext0 : List Char) : List Char :=
  let ext := unicode_nfc ext0
  if ext = [] then []
  else
    let ext := if ext.headD ' ' ≠ '.' then '.' :: ext else ext
    let body := pyLower (sanitize_piece (ext.drop 1))
    '.' :: unicode_nfc body

/-- `Gen_name.canonical_library_filename`: sanitized NFC stem plus
canonicalized extension.  The source tests
`ext and allowed and ext not in allowed` and does `pass`; the test is kept
here as an `if` whose branches coincide. -/
def canonical_library_filename (src_name : List Char)
    (allowed_exts : List (List Char)) : List Char :=
  let allowed := allowed_exts.map pyLower
  let src := unicode_nfc src_name
  let stem := unicode_nfc (sanitize_piece (pathStem src))
  let ext := canonicalize_extension (pathSuffix src)
  if ext ≠ [] ∧ allowed ≠ [] ∧ ext ∉ allowed then
    if ext ≠ [] then stem ++ ext else stem
  else
    if ext ≠ [] then stem ++ ext else stem

/-- `Gen_name.flatten_name_from_subfolder`: for one path segment the
sanitized segment; for more, `<sanitized parts[-2]>__<sanitized parts[-1]>`. -/
def flatten_name_from_subfolder (rel_path_parts : List (List Char)) : List Char :=
  match rel_path_parts with
  | [] => "untitled".toList
  | [n] => sanitize_piece n
  | _ :: _ :: _ =>
    let rev := rel_path_parts.reverse
    let folder := sanitize_piece ((rev.drop 1).headD [])
    let fname := sanitize_piece (rev.headD [])
    folder ++ "__".toList ++ fname

/-- `Gen_name.Collision`: the transient collision report
(incoming path, desired name, existing path), paths keyed by filename. -/
structure Collision where
  incoming : List Char
  desired_name : List Char
  existing : List Char
deriving DecidableEq, Repr

/-- `Gen_name.build_library_index` followed by `.get(key)`: the last accepted
file of the directory listing whose canonical key is `key` (Python's dict
keeps the last insertion for a repeated key). -/
def library_lookup (lib : List FSFile) (accepted : List Char → Bool)
    (key : List Char) : Option FSFile :=
  (lib.filter fun f => accepted f.name).foldl
    (fun acc f => if canonical_key f.name = key then some f else acc) none

/-- `Gen_name.copy_into_library_strict`: returns the library contents after
the call, the returned path (`none` for nothing-to-do) and the collision
record.  `srcPresent`/`srcIsFile` model `src.exists()`/`src.is_file()`;
`shutil.copy2` is modelled as succeeding and preserving content and mtime. -/
def copy_into_library_strict (srcPresent srcIsFile : Bool) (src : FSFile)
    (lib : List FSFile) (allowed_exts : List (List Char))
    (accepted : List Char → Bool) :
    List FSFile × Option (List Char) × Option Collision :=
  if ¬ (srcPresent ∧ srcIsFile) then (lib, none, none)
  else if ¬ accepted src.name then (lib, none, none)
  else
    let desired := canonical_library_filename src.name allowed_exts
    let key := canonical_key desired
    match library_lookup lib accepted key with
    | some existing =>
      (lib, some existing.name, some ⟨src.name, desired, existing.name⟩)
    | none =>
      (lib ++ [⟨desired, src.data, src.mtime⟩], some desired, none)

end Iconner.GenName

namespace Iconner.Gen2

open Iconner

/-- `Gen2.sanitize_piece` — unlike `Gen_name.sanitize_piece` it does NOT
NFC-normalize: replace invalid characters, strip whitespace, strip dots,
empty becomes `"untitled"`. -/
def sanitize_piece (s : List Char) : List Char :=
  let s2 := s.map fun c => if c ∈ badChars then '_' else c
  let s3 := pyStrip (· = '.') (pyStrip isPyWs s2)
  if s3 = [] then "untitled".toList else s3

/-- `Gen2.closest_folder_named_filename` for a file below `ICON_IMAGES_DIR`,
given its path parts relative to that directory (the last part is the
filename): top-level files keep their name unchanged; nested files get
`<sanitized parts[0]>__<sanitized stem><lowercased suffix>`. -/
def closest_folder_named_filename (rel_parts : List (List Char)) : List Char :=
  if rel_parts.length ≤ 1 then rel_parts.headD []
  else
    let name := rel_parts.getLastD []
    let folder := sanitize_piece (rel_parts.headD [])
    let fname := sanitize_piece (pathStem name) ++ pyLower (pathSuffix name)
    folder ++ "__".toList ++ fname

/-- `Gen2.mirror_copy_to_icon_images`: copy `src` into the library unless a
file with exactly the destination name already exists.  Returns the library
contents after the call and the returned optional destination path. -/
def mirror_copy_to_icon_images (srcPresent srcIsFile : Bool) (src : FSFile)
    (lib : List FSFile) : List FSFile × Option (List Char) :=
  if ¬ (srcPresent ∧ srcIsFile) then (lib, none)
  else
    let dstName := sanitize_piece src.name
    if lib.any fun f => f.name = dstName then (lib, some dstName)
    else (lib ++ [⟨dstName, src.data, src.mtime⟩], some dstName)

/-- `Gen2.DEFAULT_SIZES`. -/
def DEFAULT_SIZES : List Int := [16, 24, 32, 48, 64, 128, 256]

/-- `Gen2.AUTO_FULL_SIZES`: `range(8, 1025, 8)`. -/
def AUTO_FULL_SIZES : List Int := (List.range 128).map fun i => 8 * ((i : Int) + 1)

/-- `Gen2._normalize_sizes`: keep the positive entries (the Python `int(s)`
coercion is the identity on the integer inputs used here), drop duplicates
keeping first occurrences, and sort ascending.  `list.sort()` is modelled by
insertion sort: on integers every correct ascending sort computes the same
list, and insertion sort reduces in the kernel. -/
def normalize_sizes (sizes : Option (List Int)) : List Int :=
  match sizes with
  | none => []
  | some sizes =>
    let norm := sizes.foldl
      (fun acc n => if n ≤ 0 then acc else if n ∈ acc then acc else acc ++ [n]) []
    norm.insertionSort (· ≤ ·)

/-- Outcome of one `Gen2.make_ico` call: `wrote` for an `"OK:"` message,
`skippedExisting` for the `(True, "SKIP: ...")` return, `failed` for a
`(False, "ERR: ...")` return. -/
inductive MakeResult where
  | wrote
  | skippedExisting
  | failed
deriving DecidableEq, Repr

/-- The output filename `f"{src.stem}{suffix}.ico"`. -/
def icoName (srcName suffix : List Char) : List Char :=
  pathStem srcName ++ suffix ++ ".ico".toList

/-- `Gen2.make_ico` on the engine path where `outdir` is the icons directory
(a directory, not a `*.ico` file path — the maintenance pipeline always
passes `ICONS_DIR`).  Returns the icons directory contents after the call and
the outcome.  Image decoding and the ICO write are modelled as succeeding
(the claims below concern the selection and size logic, not I/O failures);
the written container records the source content identifier, the processing
options and the normalized sizes — everything `base.save(..., sizes=...)`
depends on — and receives mtime `now`. -/
def make_ico (srcPresent srcIsFile : Bool) (src : FSFile) (icons : List FSFile)
    (sizes : Option (List Int)) (opts : EncodeOpts) (suffix : List Char)
    (overwrite : Bool) (now : Nat) : List FSFile × MakeResult :=
  if ¬ (srcPresent ∧ srcIsFile) then (icons, .failed)
  else
    let outName := icoName src.name suffix
    if (icons.any fun f => f.name = outName) ∧ ¬ overwrite then
      (icons, .skippedExisting)
    else
      let sizes_to_use := normalize_sizes (some (sizes.getD DEFAULT_SIZES))
      if sizes_to_use = [] then (icons, .failed)
      else
        let rendered : FSFile :=
          ⟨outName, .ico src.data.id opts sizes_to_use, now⟩
        if icons.any fun f => f.name = outName then
          (icons.map fun f => if f.name = outName then rendered else f, .wrote)
        else (icons ++ [rendered], .wrote)

/-- The loop body of `Gen2.convert_many`, one image at a time. -/
def convert_step (sizes : Option (List Int)) (opts : EncodeOpts)
    (suffix : List Char) (overwrite skip_if_ico_exists : Bool) (now : Nat)
    (st : List FSFile × Nat × Nat × Nat) (img : FSFile) :
    List FSFile × Nat × Nat × Nat :=
  let (icons, scanned, converted, errors) := st
  let scanned := scanned + 1
  if skip_if_ico_exists ∧
      (icons.any fun f => f.name = icoName img.name suffix) then
    (icons, scanned, converted, errors)
  else
    match make_ico true true img icons sizes opts suffix overwrite now with
    | (icons', .wrote) => (icons', scanned, converted + 1, errors)
    | (icons', .skippedExisting) => (icons', scanned, converted, errors)
    | (icons', .failed) => (icons', scanned, converted, errors + 1)

/-- `Gen2.convert_many` on the engine path (`outdir` = icons directory):
filter the inputs down to image files, then convert each in listing order;
with `skip_if_ico_exists` an image whose target icon already exists is
skipped before `make_ico` runs.  Returns the icons directory contents plus
`(scanned, converted, errors)`: `scanned` counts every processed item,
`converted` the `"OK:"` results, `errors` the failures. -/
def convert_many (imgs : List FSFile) (icons : List FSFile)
    (sizes : Option (List Int)) (opts : EncodeOpts) (suffix : List Char)
    (overwrite skip_if_ico_exists : Bool) (now : Nat) :
    List FSFile × Nat × Nat × Nat :=
  let items := imgs.filter fun p => is_image_name p.name
  items.foldl (convert_step sizes opts suffix overwrite skip_if_ico_exists now)
    (icons, 0, 0, 0)

/-- The source-stem set built by `Gen2.remove_orphan_icons`: stems of the
top-level image files of the images directory. -/
def src_stems (images : List FSFile) : List (List Char) :=
  (images.filter fun f => is_image_name f.name).map fun f => pathStem f.name

/-- The base stem derived by `Gen2.remove_orphan_icons` for an icon name:
with a non-empty `suffix`, `none` means the stem does not carry the suffix
and the file is skipped; otherwise the stem with the suffix stripped. -/
def orphan_base_stem (suffix name : List Char) : Option (List Char) :=
  let stem := pathStem name
  if suffix ≠ [] then
    if suffix.isSuffixOf stem then some (stem.take (stem.length - suffix.length))
    else none
  else some stem

/-- The orphan test of the `Gen2.remove_orphan_icons` loop for a top-level
file: matched by `glob("*.ico")`, carrying the suffix convention, and with a
base stem not among the source stems. -/
def is_orphan (stems : List (List Char)) (suffix name : List Char) : Bool :=
  ".ico".toList.isSuffixOf name &&
    match orphan_base_stem suffix name with
    | none => false
    | some base => ! stems.contains base

/-- `Gen2.remove_orphan_icons` with `action="delete"` (the action the
maintenance pass requests; the loop's per-file `unlink` is the removal of
exactly the orphan entries, and `removed` counts them).  Returns the icons
directory contents after the sweep and the removed count. -/
def remove_orphan_icons (images icons : List FSFile) (suffix : List Char) :
    List FSFile × Nat :=
  let stems := src_stems images
  (icons.filter fun f => ! is_orphan stems suffix f.name,
   (icons.filter fun f => is_orphan stems suffix f.name).length)

end Iconner.Gen2

namespace Iconner

/-- A file strictly below the library root, identified by its path parts
relative to the root (the last part is the filename; two or more parts mean
the file is nested). -/
structure NestedFile where
  parts : List (List Char)
  data : FileData
  mtime : Nat
deriving DecidableEq, Repr

/-- The filename of a nested file. -/
def NestedFile.fname (n : NestedFile) : List Char := n.parts.getLastD []

end Iconner

namespace Iconner.Gen2

open Iconner

/-- `Gen2.normalize_icon_images_library`: walk the files strictly below the
root in listing order, moving each image file to the root under
`closest_folder_named_filename` unless a root file with exactly that name
already exists (`dst.exists()`); `Path.replace` preserves content and mtime.
Top-level entries yielded by `rglob` are skipped by the `p.parent ==
ICON_IMAGES_DIR` test, so only the nested listing matters.  Returns the root
files, the nested files left behind, and the move count. -/
def normalize_icon_images_library (images : List FSFile)
    (nested : List NestedFile) : List FSFile × List NestedFile × Nat :=
  nested.foldl
    (fun st n =>
      let (images, kept, moved) := st
      if ¬ is_image_name n.fname ∨ n.parts.length ≤ 1 then
        (images, kept ++ [n], moved)
      else
        let new_name := closest_folder_named_filename n.parts
        if images.any fun f => f.name = new_name then
          (images, kept ++ [n], moved)
        else
          (images ++ [⟨new_name, n.data, n.mtime⟩], kept, moved + 1))
    (images, [], 0)

/-- `Gen2.ScanReport`. -/
structure ScanReport where
  scanned : Nat
  converted : Nat
  errors : Nat
  orphan_icons_removed : Nat
  normalized_moves : Nat
deriving DecidableEq, Repr

/-- The library state a maintenance pass works on: the top-level files of
`Icon Images`, the files nested strictly below it, and the top-level files
of `Icon Images/Icons`. -/
structure LibState where
  images : List FSFile
  nested : List NestedFile
  icons : List FSFile
deriving DecidableEq, Repr

/-- `Gen2.scan_icon_images_and_convert`: (1) normalize the library,
(2) when `remove_orphans`, sweep orphan icons (Gen1's maintenance pass
requests `action="delete"`), (3) convert every top-level library image with
`skip_if_ico_exists := true`, using `AUTO_FULL_SIZES` when no size list is
given.  Returns the final state and the `ScanReport`. -/
def scan_icon_images_and_convert (st : LibState) (sizes : Option (List Int))
    (opts : EncodeOpts) (suffix : List Char) (overwrite remove_orphans : Bool)
    (now : Nat) : LibState × ScanReport :=
  let norm := normalize_icon_images_library st.images st.nested
  let images1 := norm.1
  let nested1 := norm.2.1
  let moves := norm.2.2
  let sweep :=
    if remove_orphans then remove_orphan_icons images1 st.icons suffix
    else (st.icons, 0)
  let icons1 := sweep.1
  let removed := sweep.2
  let imgs := images1.filter fun p => is_image_name p.name
  let conv := convert_many imgs icons1 (some (sizes.getD AUTO_FULL_SIZES)) opts
    suffix overwrite true now
  (⟨images1, nested1, conv.1⟩,
   ⟨conv.2.1, conv.2.2.1, conv.2.2.2, removed, moves⟩)

/-- Derived notion used to state what the convert phase does: the images of
`items` whose target icon is absent from `icons`. -/
def missing_icon_images (items icons : List FSFile) (suffix : List Char) :
    List FSFile :=
  items.filter fun img => ! icons.any fun f => f.name = icoName img.name suffix

/-- Derived notion used to state what the convert phase does: the icon file
`make_ico` writes for `img`. -/
def rendered_icon (img : FSFile) (opts : EncodeOpts) (szs : List Int)
    (suffix : List Char) (now : Nat) : FSFile :=
  ⟨icoName img.name suffix, .ico img.data.id opts szs, now⟩

end Iconner.Gen2

namespace Iconner.Gen1

/-- `Gen1`'s maintenance state: the `_maint_busy` flag, the single
`_maint_pending_reason` slot, and — for specification purposes — the log of
executed passes as `(reason, ok)` pairs, `ok = false` when the pass body
raised (the exception is caught and logged). -/
structure MaintState where
  busy : Bool
  pending : Option String
  runs : List (String × Bool)
deriving DecidableEq, Repr

/-- `Gen1._maintenance_scan`: set the busy flag; run the pass body under
`try/except` (recorded in `runs`; `passFails` says whether
`scan_icon_images_and_convert` raised — either way control reaches
`finally`); the requests arriving while the pass runs (`mid`, in order) each
go through `_maintenance_request` and, the flag being busy throughout, just
overwrite the pending slot; then, in `finally`, clear the busy flag and, if
a pending reason is set, clear it and hand it to the 50 ms-scheduled
`_maintenance_request` call.  Returns the state after the `finally` block
plus the reason of the scheduled rerun, if any. -/
def maintenance_scan (st : MaintState) (reason : String)
    (mid : List String) (passFails : Bool) : MaintState × Option String :=
  let st1 : MaintState :=
    { st with busy := true, runs := st.runs ++ [(reason, ! passFails)] }
  let st2 := mid.foldl
    (fun s r => if s.busy then { s with pending := some r } else s) st1
  let st3 : MaintState := { st2 with busy := false }
  match st3.pending with
  | some r => ({ st3 with pending := none }, some r)
  | none => (st3, none)

/-- `Gen1._maintenance_request`, with the rerun timer inlined: if busy,
remember the latest reason; otherwise run a pass via `_maintenance_scan`
(`mid` are the requests arriving during that pass; the rerun a scan schedules
is modelled with no further incoming requests and a succeeding pass body).
`fuel` bounds the rerun chain; every theorem instantiates it large enough
that it is never exhausted. -/
def maintenance_request (fuel : Nat) (st : MaintState) (reason : String)
    (mid : List String) (passFails : Bool) : MaintState :=
  match fuel with
  | 0 => st
  | fuel + 1 =>
    if st.busy then { st with pending := some reason }
    else
      match maintenance_scan st reason mid passFails with
      | (st', some r) => maintenance_request fuel st' r [] false
      | (st', none) => st'

end Iconner.Gen1

namespace Iconner

open Iconner.GenName in
/-- The stem transformation as claim C9 words it (refinement comparison,
modelled from the spec's words, not from the source): invalid characters
replaced by `_`, and leading/trailing dots AND whitespace trimmed (so the
result starts and ends with neither); empty becomes `"untitled"`. -/
def spec_sanitized_stem (s : List Char) : List Char :=
  let s2 := (unicode_nfc s).map fun c => if c ∈ badChars then '_' else c
  let s3 := pyStrip (fun c => isPyWs c || c = '.') s2
  if s3 = [] then "untitled".toList else s3

end Iconner

namespace Iconner

/-! ## Theorems -/

/-- Folding a character does not change whether it is the combining acute. -/
theorem charFold_eq_combAcute {m : Char} (h : charFold m = combAcute) :
    m = combAcute := by
  unfold charFold at h
  split at h <;> simp_all [combAcute]

set_option maxHeartbeats 1000000 in
/-- The acute-composition table commutes with case folding. -/
theorem composeAcute_charFold (c : Char) :
    composeAcute (charFold c) = (composeAcute c).map charFold := by
  cases h : composeAcute c with
  | some d =>
    unfold composeAcute at h
    split at h <;> first | (injection h with h; subst h; decide) | injection h
  | none =>
    unfold composeAcute at h
    split at h <;> try simp_all
    unfold charFold
    split <;> first | decide | simp_all
    unfold composeAcute
    split <;> simp_all

/-- Composition commutes with case folding: composing the folded characters
gives the folded composition. -/
theorem composePair_charFold (c m : Char) :
    composePair (charFold c) (charFold m) = (composePair c m).map charFold := by
  unfold composePair
  by_cases hm : m = combAcute
  · subst hm
    rw [if_pos (by decide), if_pos rfl]
    exact composeAcute_charFold c
  · rw [if_neg (fun h => hm (charFold_eq_combAcute h)), if_neg hm]
    rfl

/-- Case folding commutes with the NFC scan. -/
theorem nfcAux_charFold (c : Char) (l : List Char) :
    nfcAux (charFold c) (l.map charFold) = (nfcAux c l).map charFold := by
  induction l generalizing c with
  | nil => rfl
  | cons m rest ih =>
    simp only [List.map_cons, nfcAux, composePair_charFold c m]
    cases h : composePair c m with
    | some d => simpa using ih d
    | none => simpa using ih m

/-- Case folding commutes with NFC normalization. -/
theorem unicode_nfc_casefold (l : List Char) :
    unicode_nfc (casefold l) = casefold (unicode_nfc l) := by
  cases l with
  | nil => rfl
  | cons c rest => simpa [unicode_nfc, casefold] using nfcAux_charFold c rest

/-- C2: `Gen_name.canonical_key` is insensitive to letter case and to Unicode
normalization form.  Conjuncts: (1) `"Anime.PNG"` and `"anime.png"` get equal
keys; (2) the NFD spelling `cafe` + combining acute of `café.png` gets the
same key as the NFC spelling; (3) any two names that differ only by letter
case (equal after case folding) get equal keys; (4) any two names that differ
only by normalization form (equal after NFC) get equal keys.  Two names are
"the same identity" exactly when their keys are equal — that is by
construction how `build_library_index`/`library_lookup` compare names — so
(1)–(4) give the claimed identifications. -/
theorem canonicalKey_case_and_normalization_insensitive :
    GenName.canonical_key "Anime.PNG".toList
      = GenName.canonical_key "anime.png".toList ∧
    GenName.canonical_key ['c', 'a', 'f', 'e', combAcute, '.', 'p', 'n', 'g']
      = GenName.canonical_key "café.png".toList ∧
    (∀ x y : List Char, casefold x = casefold y →
      GenName.canonical_key x = GenName.canonical_key y) ∧
    (∀ x y : List Char, unicode_nfc x = unicode_nfc y →
      GenName.canonical_key x = GenName.canonical_key y) := by
  refine ⟨by decide, by decide, ?_, ?_⟩
  · intro x y h
    unfold GenName.canonical_key
    rw [← unicode_nfc_casefold, ← unicode_nfc_casefold, h]
  · intro x y h
    unfold GenName.canonical_key casefold
    rw [h]

/-- Witness for C2: the case-folding conjunct applied at concrete inputs. -/
theorem canonicalKey_case_and_normalization_insensitive_witness :
    GenName.canonical_key "FOO Bar.PNG".toList
      = GenName.canonical_key "foo bAR.png".toList :=
  canonicalKey_case_and_normalization_insensitive.2.2.1
    "FOO Bar.PNG".toList "foo bAR.png".toList (by decide)

/-- C1: evaluation at the failing input.  A library holding `anime.png`
receives a source named `Anime.PNG` (same canonical key).
`Gen_name.copy_into_library_strict` behaves as claimed: it leaves the
library unchanged and returns the existing path with a collision record.
The wrapper `Gen2.mirror_copy_to_icon_images`, however, does not route
through these helpers (contradicting the `Gen_name` module's own "where it
plugs in" documentation): it compares exact names only, copies a second
file whose canonical key equals the existing one, and returns no collision
record. -/
theorem mirrorCopy_creates_canonical_duplicate :
    GenName.copy_into_library_strict true true
        ⟨"Anime.PNG".toList, .raw 1, 5⟩ [⟨"anime.png".toList, .raw 0, 3⟩]
        IMAGE_EXTS is_image_name
      = ([⟨"anime.png".toList, .raw 0, 3⟩], some "anime.png".toList,
         some ⟨"Anime.PNG".toList, "Anime.png".toList, "anime.png".toList⟩) ∧
    Gen2.mirror_copy_to_icon_images true true
        ⟨"Anime.PNG".toList, .raw 1, 5⟩ [⟨"anime.png".toList, .raw 0, 3⟩]
      = ([⟨"anime.png".toList, .raw 0, 3⟩, ⟨"Anime.PNG".toList, .raw 1, 5⟩],
         some "Anime.PNG".toList) ∧
    GenName.canonical_key "Anime.PNG".toList
      = GenName.canonical_key "anime.png".toList := by
  refine ⟨by decide, by decide, by decide⟩

/-- C8: evaluation at the failing input.  For a file nested two levels deep
(`A/B/f.png` below the library root) the name computed during normalization
(`Gen2.closest_folder_named_filename`) uses the TOP-level folder `A`, not the
immediate parent `B` that the claim (and `Gen_name.flatten_name_from_subfolder`,
the helper the `Gen_name` module says normalization should use) prescribes;
and a top-level file is returned unsanitized, not sanitized. -/
theorem closestFolderName_uses_top_folder_not_immediate_parent :
    Gen2.closest_folder_named_filename
        ["A".toList, "B".toList, "f.png".toList] = "A__f.png".toList ∧
    GenName.flatten_name_from_subfolder
        ["A".toList, "B".toList, "f.png".toList] = "B__f.png".toList ∧
    "A__f.png".toList ≠ "B__f.png".toList ∧
    Gen2.closest_folder_named_filename ["we:ird.png".toList]
      = "we:ird.png".toList ∧
    GenName.sanitize_piece "we:ird.png".toList = "we_ird.png".toList ∧
    "we:ird.png".toList ≠ "we_ird.png".toList := by
  refine ⟨by decide, by decide, by decide, by decide, by decide, by decide⟩

/-- C9, counterexample: `canonical_library_filename` strips whitespace first
and dots second, once each, so a stem such as `". name"` keeps the space that
trimming the dot uncovers — the output is NOT the claimed form in which
leading/trailing dots and whitespace are (both, fully) trimmed. -/
theorem canonicalLibraryFilename_keeps_space_uncovered_by_dot_trim :
    GenName.canonical_library_filename ". name.png".toList IMAGE_EXTS
      = " name.png".toList ∧
    spec_sanitized_stem (pathStem (unicode_nfc ". name.png".toList))
        ++ GenName.canonicalize_extension
            (pathSuffix (unicode_nfc ". name.png".toList))
      = "name.png".toList ∧
    " name.png".toList ≠ "name.png".toList := by
  refine ⟨by decide, by decide, by decide⟩

/-- A composed character is an accented vowel, never a parenthesis. -/
theorem composePair_ne_paren {c m d : Char} (h : composePair c m = some d) :
    d ≠ '(' := by
  unfold composePair at h
  split at h
  · unfold composeAcute at h
    split at h <;> first | (injection h with h; subst h; decide) | injection h
  · injection h

/-- The NFC scan never increases the number of `(` characters. -/
theorem count_nfcAux_le (c : Char) (l : List Char) :
    (nfcAux c l).count '(' ≤ ((c :: l).count '(') := by
  induction l generalizing c with
  | nil => simp [nfcAux]
  | cons m rest ih =>
    simp only [nfcAux]
    cases h : composePair c m with
    | some d =>
      have hd : (d == '(') = false := by
        simpa using composePair_ne_paren h
      have h1 := ih d
      simp only [List.count_cons, hd] at h1 ⊢
      simp at h1 ⊢
      omega
    | none =>
      have h1 := ih m
      simp only [List.count_cons] at h1 ⊢
      omega

/-- NFC normalization never increases the number of `(` characters. -/
theorem count_unicode_nfc_le (l : List Char) :
    (unicode_nfc l).count '(' ≤ l.count '(' := by
  cases l with
  | nil => simp [unicode_nfc]
  | cons c rest => exact count_nfcAux_le c rest

/-- Mapping by a function that only yields `(` at `(` does not increase the
number of `(` characters. -/
theorem count_map_le (f : Char → Char) (hf : ∀ c, f c = '(' → c = '(')
    (l : List Char) : (l.map f).count '(' ≤ l.count '(' := by
  induction l with
  | nil => simp
  | cons c rest ih =>
    simp only [List.map_cons, List.count_cons]
    by_cases hc : f c = '('
    · have hcc := hf c hc
      subst hcc
      simp only [hc]
      omega
    · have hb : (f c == '(') = false := by simpa using hc
      simp only [hb]
      simp
      omega

/-- Stripping characters from both ends does not increase the `(` count. -/
theorem count_pyStrip_le (p : Char → Bool) (l : List Char) :
    (pyStrip p l).count '(' ≤ l.count '(' := by
  unfold pyStrip
  rw [List.count_reverse]
  calc ((l.dropWhile p).reverse.dropWhile p).count '('
      ≤ (l.dropWhile p).reverse.count '(' :=
        (List.dropWhile_sublist p).count_le '('
    _ = (l.dropWhile p).count '(' := List.count_reverse '(' _
    _ ≤ l.count '(' := (List.dropWhile_sublist p).count_le '('

/-- The bad-character replacement only yields `(` at `(`. -/
theorem badRepl_paren (c : Char)
    (h : (if c ∈ badChars then '_' else c) = '(') : c = '(' := by
  by_cases hm : c ∈ badChars
  · rw [if_pos hm] at h
    exact absurd h (by decide)
  · rwa [if_neg hm] at h

/-- Case folding only yields `(` at `(`. -/
theorem charFold_paren (c : Char) (h : charFold c = '(') : c = '(' := by
  unfold charFold at h
  split at h <;> simp_all

/-- `Gen_name.sanitize_piece` never increases the `(` count. -/
theorem count_sanitize_piece_le (s : List Char) :
    (GenName.sanitize_piece s).count '(' ≤ s.count '(' := by
  unfold GenName.sanitize_piece
  dsimp only
  split
  · calc ("untitled".toList).count '(' = 0 := by decide
      _ ≤ s.count '(' := Nat.zero_le _
  · calc (pyStrip (· = '.') (pyStrip isPyWs
          ((unicode_nfc s).map fun c => if c ∈ badChars then '_' else c))).count '('
        ≤ (pyStrip isPyWs
          ((unicode_nfc s).map fun c => if c ∈ badChars then '_' else c)).count '(' :=
          count_pyStrip_le _ _
      _ ≤ ((unicode_nfc s).map fun c => if c ∈ badChars then '_' else c).count '(' :=
          count_pyStrip_le _ _
      _ ≤ (unicode_nfc s).count '(' := count_map_le _ badRepl_paren _
      _ ≤ s.count '(' := count_unicode_nfc_le s

/-- `Gen_name.canonicalize_extension` never increases the `(` count. -/
theorem count_canonicalize_extension_le (e : List Char) :
    (GenName.canonicalize_extension e).count '(' ≤ e.count '(' := by
  unfold GenName.canonicalize_extension
  dsimp only
  split
  · simp
  · have hb : (('.' : Char) == '(') = false := by decide
    simp only [List.count_cons, hb, if_false]
    have chain : ∀ t : List Char,
        (unicode_nfc (pyLower (GenName.sanitize_piece t))).count '(' ≤ t.count '(' := by
      intro t
      calc (unicode_nfc (pyLower (GenName.sanitize_piece t))).count '('
          ≤ (pyLower (GenName.sanitize_piece t)).count '(' := count_unicode_nfc_le _
        _ ≤ (GenName.sanitize_piece t).count '(' := count_map_le _ charFold_paren _
        _ ≤ t.count '(' := count_sanitize_piece_le t
    split
    · calc (unicode_nfc (pyLower (GenName.sanitize_piece (('.' :: unicode_nfc e).drop 1)))).count '(' + 0
          = (unicode_nfc (pyLower (GenName.sanitize_piece (unicode_nfc e)))).count '(' := by simp
        _ ≤ (unicode_nfc e).count '(' := chain _
        _ ≤ e.count '(' := count_unicode_nfc_le e
    · calc (unicode_nfc (pyLower (GenName.sanitize_piece ((unicode_nfc e).drop 1)))).count '(' + 0
          ≤ ((unicode_nfc e).drop 1).count '(' := by simpa using chain _
        _ ≤ (unicode_nfc e).count '(' := (List.drop_sublist 1 _).count_le '('
        _ ≤ e.count '(' := count_unicode_nfc_le e

/-- An index returned by `lastDotIdx` is a valid index. -/
theorem lastDotIdx_lt {l : List Char} {i : Nat} (h : lastDotIdx l = some i) :
    i < l.length := by
  unfold lastDotIdx at h
  have hx : i ∈ ((List.range l.length).filter fun j => l.getD j ' ' = '.').getLast? := by
    rw [h]
    rfl
  obtain ⟨hne, heq⟩ := List.mem_getLast?_eq_getLast hx
  have hmem : i ∈ (List.range l.length).filter fun j => l.getD j ' ' = '.' := by
    rw [heq]
    exact List.getLast_mem hne
  exact List.mem_range.mp (List.mem_filter.mp hmem).1

/-- The stem and the suffix partition the name. -/
theorem pathStem_append_pathSuffix (l : List Char) :
    pathStem l ++ pathSuffix l = pathName l := by
  unfold pathStem pathSuffix
  dsimp only
  cases h : lastDotIdx (pathName l) with
  | none => simp [h]
  | some i =>
    have hi : i < (pathName l).length := lastDotIdx_lt h
    simp only [h]
    by_cases hp : 0 < i ∧ i < (pathName l).length - 1
    · simp only [if_pos hp, List.length_drop]
      have h2 : (pathName l).length - ((pathName l).length - i) = i := by omega
      rw [h2]
      exact List.take_append_drop i (pathName l)
    · simp [if_neg hp]

/-- `pathName` never increases the `(` count. -/
theorem count_pathName_le (l : List Char) :
    (pathName l).count '(' ≤ l.count '(' := by
  unfold pathName
  rw [List.count_reverse]
  calc (l.reverse.takeWhile (· ≠ '/')).count '('
      ≤ l.reverse.count '(' := (List.takeWhile_sublist _).count_le '('
    _ = l.count '(' := List.count_reverse '(' l

/-- C9, amended: `canonical_library_filename` deterministically returns the
sanitized NFC stem (invalid characters replaced by `_`, whitespace stripped,
then leading/trailing dots stripped — whitespace uncovered by the dot strip
is kept; an empty stem becomes `"untitled"`) concatenated with the
canonicalized extension; and it never introduces a `(`, so no counter such as
`" (2)"` is ever appended (determinism itself is by construction: the
embedding is a pure function, as is the source code path, which reads no
external state). -/
theorem canonicalLibraryFilename_structure_and_no_counter :
    (∀ (n : List Char) (e : List (List Char)),
      GenName.canonical_library_filename n e
        = (let stem := unicode_nfc (GenName.sanitize_piece (pathStem (unicode_nfc n)))
           let ext := GenName.canonicalize_extension (pathSuffix (unicode_nfc n))
           if ext ≠ [] then stem ++ ext else stem)) ∧
    (∀ (n : List Char) (e : List (List Char)),
      (GenName.canonical_library_filename n e).count '(' ≤ n.count '(') := by
  have hstruct : ∀ (n : List Char) (e : List (List Char)),
      GenName.canonical_library_filename n e
        = (let stem := unicode_nfc (GenName.sanitize_piece (pathStem (unicode_nfc n)))
           let ext := GenName.canonicalize_extension (pathSuffix (unicode_nfc n))
           if ext ≠ [] then stem ++ ext else stem) := by
    intro n e
    simp only [GenName.canonical_library_filename, ite_self]
  refine ⟨hstruct, ?_⟩
  intro n e
  rw [hstruct n e]
  dsimp only
  have hstem : (unicode_nfc (GenName.sanitize_piece (pathStem (unicode_nfc n)))).count '('
      ≤ (pathStem (unicode_nfc n)).count '(' :=
    le_trans (count_unicode_nfc_le _) (count_sanitize_piece_le _)
  have hext : (GenName.canonicalize_extension (pathSuffix (unicode_nfc n))).count '('
      ≤ (pathSuffix (unicode_nfc n)).count '(' :=
    count_canonicalize_extension_le _
  have hsplit : (pathStem (unicode_nfc n)).count '('
        + (pathSuffix (unicode_nfc n)).count '('
      ≤ n.count '(' := by
    have := congrArg (List.count '(') (pathStem_append_pathSuffix (unicode_nfc n))
    rw [List.count_append] at this
    rw [this]
    exact le_trans (count_pathName_le _) (count_unicode_nfc_le n)
  split
  · rw [List.count_append]
    omega
  · omega

/-- Membership in the positive-dedup fold of `_normalize_sizes`. -/
theorem mem_normalize_sizes_foldl (s : List Int) (acc : List Int) (x : Int) :
    x ∈ s.foldl
        (fun acc n => if n ≤ 0 then acc else if n ∈ acc then acc else acc ++ [n]) acc
      ↔ x ∈ acc ∨ (x ∈ s ∧ 0 < x) := by
  induction s generalizing acc with
  | nil => simp
  | cons a t ih =>
    simp only [List.foldl_cons]
    by_cases h1 : a ≤ 0
    · rw [if_pos h1, ih]
      constructor
      · rintro (h | ⟨hx, hp⟩)
        · exact Or.inl h
        · exact Or.inr ⟨List.mem_cons_of_mem a hx, hp⟩
      · rintro (h | ⟨hmem, hp⟩)
        · exact Or.inl h
        · rcases List.mem_cons.mp hmem with h | hx
          · omega
          · exact Or.inr ⟨hx, hp⟩
    · rw [if_neg h1]
      by_cases h2 : a ∈ acc
      · rw [if_pos h2, ih]
        constructor
        · rintro (h | ⟨hx, hp⟩)
          · exact Or.inl h
          · exact Or.inr ⟨List.mem_cons_of_mem a hx, hp⟩
        · rintro (h | ⟨hmem, hp⟩)
          · exact Or.inl h
          · rcases List.mem_cons.mp hmem with h | hx
            · exact Or.inl (h ▸ h2)
            · exact Or.inr ⟨hx, hp⟩
      · rw [if_neg h2, ih]
        constructor
        · rintro (h | ⟨hx, hp⟩)
          · rcases List.mem_append.mp h with h | h
            · exact Or.inl h
            · have hxa : x = a := by simpa using h
              exact Or.inr ⟨List.mem_cons.mpr (Or.inl hxa), by omega⟩
          · exact Or.inr ⟨List.mem_cons_of_mem a hx, hp⟩
        · rintro (h | ⟨hmem, hp⟩)
          · exact Or.inl (List.mem_append.mpr (Or.inl h))
          · rcases List.mem_cons.mp hmem with h | hx
            · exact Or.inl (List.mem_append.mpr (Or.inr (by simpa using h)))
            · exact Or.inr ⟨hx, hp⟩

/-- The positive-dedup fold of `_normalize_sizes` preserves `Nodup`. -/
theorem nodup_normalize_sizes_foldl (s : List Int) (acc : List Int)
    (hacc : acc.Nodup) :
    (s.foldl
      (fun acc n => if n ≤ 0 then acc else if n ∈ acc then acc else acc ++ [n])
      acc).Nodup := by
  induction s generalizing acc with
  | nil => simpa using hacc
  | cons a t ih =>
    simp only [List.foldl_cons]
    by_cases h1 : a ≤ 0
    · rw [if_pos h1]; exact ih acc hacc
    · rw [if_neg h1]
      by_cases h2 : a ∈ acc
      · rw [if_pos h2]; exact ih acc hacc
      · rw [if_neg h2]
        refine ih _ ?_
        simp [List.nodup_append, hacc, h2]

/-- `_normalize_sizes` keeps exactly the positive requested sizes. -/
theorem normalize_sizes_mem (s : List Int) (x : Int) :
    x ∈ Gen2.normalize_sizes (some s) ↔ x ∈ s ∧ 0 < x := by
  unfold Gen2.normalize_sizes
  dsimp only
  rw [(List.perm_insertionSort _ _).mem_iff, mem_normalize_sizes_foldl]
  simp

/-- `_normalize_sizes` returns a strictly ascending list. -/
theorem normalize_sizes_sorted (s : List Int) :
    List.Sorted (· < ·) (Gen2.normalize_sizes (some s)) := by
  unfold Gen2.normalize_sizes
  dsimp only
  refine List.Sorted.lt_of_le (List.sorted_insertionSort _ _) ?_
  exact ((List.perm_insertionSort _ _).nodup_iff).mpr
    (nodup_normalize_sizes_foldl s [] List.nodup_nil)

/-- `make_ico` only consumes the size list through `_normalize_sizes`. -/
theorem make_ico_sizes_congr (sp sf : Bool) (src : FSFile) (icons : List FSFile)
    {s₁ s₂ : List Int} (opts : EncodeOpts) (suffix : List Char)
    (ov : Bool) (now : Nat)
    (h : Gen2.normalize_sizes (some s₁) = Gen2.normalize_sizes (some s₂)) :
    Gen2.make_ico sp sf src icons (some s₁) opts suffix ov now
      = Gen2.make_ico sp sf src icons (some s₂) opts suffix ov now := by
  unfold Gen2.make_ico
  simp only [Option.getD_some]
  rw [h]

/-- C7, counterexample: with an empty requested size list, an output that
already exists, and `overwrite = False`, `make_ico` returns the
skipped-success outcome, not an error — the existence skip precedes the size
validation. -/
theorem makeIco_empty_sizes_skip_counterexample :
    Gen2.normalize_sizes (some []) = [] ∧
    Gen2.make_ico true true ⟨"a.png".toList, .raw 0, 1⟩
        [⟨"a.ico".toList, .ico 0 ⟨true, false, "balanced".toList⟩ [16], 2⟩]
        (some []) ⟨true, false, "balanced".toList⟩ [] false 7
      = ([⟨"a.ico".toList, .ico 0 ⟨true, false, "balanced".toList⟩ [16], 2⟩],
         .skippedExisting) := by
  refine ⟨by decide, by decide⟩

/-- C7, amended: `_normalize_sizes` filters to positive entries,
de-duplicates and sorts strictly ascending; `[32,16,32]` and `[16,32]`
normalize identically, so `make_ico` produces the same output container for
the two lists; with an empty normalized list `make_ico` never writes, and —
unless the call is skipped because the output exists with overwrite off
(which returns a skip success, not an error) — it fails with an error. -/
theorem normalizeSizes_makeIco_dedup_sort_emptyFail :
    (∀ s : List Int, List.Sorted (· < ·) (Gen2.normalize_sizes (some s))) ∧
    (∀ (s : List Int) (x : Int),
      x ∈ Gen2.normalize_sizes (some s) ↔ x ∈ s ∧ 0 < x) ∧
    Gen2.normalize_sizes (some [32, 16, 32]) = Gen2.normalize_sizes (some [16, 32]) ∧
    (∀ (sp sf : Bool) (src : FSFile) (icons : List FSFile) (opts : EncodeOpts)
        (suffix : List Char) (ov : Bool) (now : Nat),
      Gen2.make_ico sp sf src icons (some [32, 16, 32]) opts suffix ov now
        = Gen2.make_ico sp sf src icons (some [16, 32]) opts suffix ov now) ∧
    (∀ (src : FSFile) (icons : List FSFile) (s : List Int) (opts : EncodeOpts)
        (suffix : List Char) (ov : Bool) (now : Nat),
      Gen2.normalize_sizes (some s) = [] →
        (Gen2.make_ico true true src icons (some s) opts suffix ov now).1 = icons) ∧
    (∀ (src : FSFile) (icons : List FSFile) (s : List Int) (opts : EncodeOpts)
        (suffix : List Char) (ov : Bool) (now : Nat),
      Gen2.normalize_sizes (some s) = [] →
      ¬ ((icons.any fun f => f.name = Gen2.icoName src.name suffix) = true ∧ ov = false) →
        Gen2.make_ico true true src icons (some s) opts suffix ov now
          = (icons, .failed)) := by
  refine ⟨normalize_sizes_sorted, normalize_sizes_mem, by decide,
    fun sp sf src icons opts suffix ov now =>
      make_ico_sizes_congr sp sf src icons opts suffix ov now (by decide),
    ?_, ?_⟩
  · intro src icons s opts suffix ov now h
    unfold Gen2.make_ico
    dsimp only
    rw [if_neg (by simp)]
    split
    · rfl
    · simp only [Option.getD_some, h]
      simp
  · intro src icons s opts suffix ov now h hskip
    unfold Gen2.make_ico
    dsimp only
    rw [if_neg (by simp), if_neg (by simpa using hskip)]
    simp only [Option.getD_some, h]
    simp

/-- Witness for C7's amended theorem: the empty-size failure applied at a
concrete input. -/
theorem normalizeSizes_makeIco_dedup_sort_emptyFail_witness :
    Gen2.make_ico true true ⟨"a.png".toList, .raw 0, 1⟩ [] (some [0, -5])
        ⟨true, false, "balanced".toList⟩ [] true 7
      = ([], .failed) :=
  normalizeSizes_makeIco_dedup_sort_emptyFail.2.2.2.2.2
    ⟨"a.png".toList, .raw 0, 1⟩ [] [0, -5]
    ⟨true, false, "balanced".toList⟩ [] true 7 (by decide) (by decide)

/-- C5: the delete-mode orphan sweep removes exactly the orphans (top-level
`.ico` files that carry the suffix convention and whose base stem is not
among the source stems), keeps every non-orphan, reports the orphan count,
and is idempotent: an immediate second sweep removes zero files. -/
theorem removeOrphanIcons_exact_and_idempotent :
    ∀ (images icons : List FSFile) (suffix : List Char),
      (∀ f ∈ icons,
        Gen2.is_orphan (Gen2.src_stems images) suffix f.name = true →
          f ∉ (Gen2.remove_orphan_icons images icons suffix).1) ∧
      (∀ f ∈ icons,
        Gen2.is_orphan (Gen2.src_stems images) suffix f.name = false →
          f ∈ (Gen2.remove_orphan_icons images icons suffix).1) ∧
      (Gen2.remove_orphan_icons images icons suffix).2
        = (icons.filter fun f =>
            Gen2.is_orphan (Gen2.src_stems images) suffix f.name).length ∧
      Gen2.remove_orphan_icons images
          (Gen2.remove_orphan_icons images icons suffix).1 suffix
        = ((Gen2.remove_orphan_icons images icons suffix).1, 0) := by
  intro images icons suffix
  refine ⟨?_, ?_, rfl, ?_⟩
  · intro f hf ho hmem
    unfold Gen2.remove_orphan_icons at hmem
    rw [List.mem_filter] at hmem
    simp [ho] at hmem
  · intro f hf ho
    unfold Gen2.remove_orphan_icons
    exact List.mem_filter.mpr ⟨hf, by simp [ho]⟩
  · unfold Gen2.remove_orphan_icons
    dsimp only
    rw [List.filter_filter, List.filter_filter]
    have hA : (fun f : FSFile => ! Gen2.is_orphan (Gen2.src_stems images) suffix f.name
          && ! Gen2.is_orphan (Gen2.src_stems images) suffix f.name)
        = fun f : FSFile => ! Gen2.is_orphan (Gen2.src_stems images) suffix f.name :=
      funext fun f => Bool.and_self _
    have hB : (fun f : FSFile => Gen2.is_orphan (Gen2.src_stems images) suffix f.name
          && ! Gen2.is_orphan (Gen2.src_stems images) suffix f.name)
        = fun _ : FSFile => false :=
      funext fun f => Bool.and_not_self _
    rw [hA, hB]
    simp

/-- Witness for C5: for source stems `{A, B}` and icon stems `{A, B, C}`,
the orphan `C.ico` is removed and `A.ico` survives. -/
theorem removeOrphanIcons_exact_and_idempotent_witness :
    (⟨"C.ico".toList, .ico 9 ⟨true, false, "balanced".toList⟩ [16], 2⟩ : FSFile)
      ∉ (Gen2.remove_orphan_icons
          [⟨"A.png".toList, .raw 0, 1⟩, ⟨"B.png".toList, .raw 1, 1⟩]
          [⟨"A.ico".toList, .ico 0 ⟨true, false, "balanced".toList⟩ [16], 2⟩,
           ⟨"B.ico".toList, .ico 1 ⟨true, false, "balanced".toList⟩ [16], 2⟩,
           ⟨"C.ico".toList, .ico 9 ⟨true, false, "balanced".toList⟩ [16], 2⟩]
          []).1 ∧
    (⟨"A.ico".toList, .ico 0 ⟨true, false, "balanced".toList⟩ [16], 2⟩ : FSFile)
      ∈ (Gen2.remove_orphan_icons
          [⟨"A.png".toList, .raw 0, 1⟩, ⟨"B.png".toList, .raw 1, 1⟩]
          [⟨"A.ico".toList, .ico 0 ⟨true, false, "balanced".toList⟩ [16], 2⟩,
           ⟨"B.ico".toList, .ico 1 ⟨true, false, "balanced".toList⟩ [16], 2⟩,
           ⟨"C.ico".toList, .ico 9 ⟨true, false, "balanced".toList⟩ [16], 2⟩]
          []).1 :=
  ⟨(removeOrphanIcons_exact_and_idempotent _ _ _).1 _ (by decide) (by decide),
   (removeOrphanIcons_exact_and_idempotent _ _ _).2.1 _ (by decide) (by decide)⟩

/-- One convert step on an image whose icon already exists only counts it. -/
theorem convert_step_skip (szs : List Int) (opts : EncodeOpts)
    (suffix : List Char) (ov : Bool) (now : Nat) (icons : List FSFile)
    (s c e : Nat) (a : FSFile)
    (hex : (icons.any fun f => f.name = Gen2.icoName a.name suffix) = true) :
    Gen2.convert_step (some szs) opts suffix ov true now (icons, s, c, e) a
      = (icons, s + 1, c, e) := by
  unfold Gen2.convert_step
  dsimp only
  rw [if_pos (by simp [hex])]

/-- One convert step on an image whose icon is missing appends the rendered
icon and counts a conversion. -/
theorem convert_step_write (szs : List Int) (opts : EncodeOpts)
    (suffix : List Char) (ov : Bool) (now : Nat) (icons : List FSFile)
    (s c e : Nat) (a : FSFile)
    (hex : (icons.any fun f => f.name = Gen2.icoName a.name suffix) = false)
    (hsz : Gen2.normalize_sizes (some szs) ≠ []) :
    Gen2.convert_step (some szs) opts suffix ov true now (icons, s, c, e) a
      = (icons ++ [Gen2.rendered_icon a opts (Gen2.normalize_sizes (some szs)) suffix now],
         s + 1, c + 1, e) := by
  unfold Gen2.convert_step
  dsimp only
  rw [if_neg (by simp [hex])]
  unfold Gen2.make_ico
  dsimp only
  rw [if_neg (by simp), if_neg (by simp [hex])]
  simp only [Option.getD_some]
  rw [if_neg hsz, if_neg (by simp [hex])]
  rfl

/-- The convert fold with `skip_if_ico_exists` counts every item, renders
exactly the items whose icon is missing at the start of the fold (provided
the target icon names are pairwise distinct), appends them in order, and
produces no errors when the size list is nonempty. -/
theorem convert_fold_exact (szs : List Int) (opts : EncodeOpts)
    (suffix : List Char) (ov : Bool) (now : Nat)
    (hsz : Gen2.normalize_sizes (some szs) ≠ []) :
    ∀ (items : List FSFile) (icons : List FSFile) (s c e : Nat),
      items.Pairwise
        (fun a b => Gen2.icoName a.name suffix ≠ Gen2.icoName b.name suffix) →
      items.foldl (Gen2.convert_step (some szs) opts suffix ov true now)
          (icons, s, c, e)
        = (icons ++ (Gen2.missing_icon_images items icons suffix).map
              (fun img => Gen2.rendered_icon img opts
                (Gen2.normalize_sizes (some szs)) suffix now),
           s + items.length,
           c + (Gen2.missing_icon_images items icons suffix).length, e) := by
  intro items
  induction items with
  | nil =>
    intro icons s c e _
    simp [Gen2.missing_icon_images]
  | cons a t ih =>
    intro icons s c e hpw
    rw [List.pairwise_cons] at hpw
    obtain ⟨ha, hpt⟩ := hpw
    rw [List.foldl_cons]
    by_cases hex : (icons.any fun f => f.name = Gen2.icoName a.name suffix) = true
    · rw [convert_step_skip szs opts suffix ov now icons s c e a hex,
        ih icons (s + 1) c e hpt]
      have hm : Gen2.missing_icon_images (a :: t) icons suffix
          = Gen2.missing_icon_images t icons suffix := by
        unfold Gen2.missing_icon_images
        simp [List.filter_cons, hex]
      rw [hm]
      simp [Prod.ext_iff]
      all_goals omega
    · have hexf : (icons.any fun f => f.name = Gen2.icoName a.name suffix) = false := by
        simpa using hex
      rw [convert_step_write szs opts suffix ov now icons s c e a hexf hsz,
        ih _ (s + 1) (c + 1) e hpt]
      have hmt : Gen2.missing_icon_images t
            (icons ++ [Gen2.rendered_icon a opts
              (Gen2.normalize_sizes (some szs)) suffix now]) suffix
          = Gen2.missing_icon_images t icons suffix := by
        unfold Gen2.missing_icon_images
        apply List.filter_congr
        intro img himg
        have hne := ha img himg
        simp [List.any_append, Gen2.rendered_icon, hne]
      have hmc : Gen2.missing_icon_images (a :: t) icons suffix
          = a :: Gen2.missing_icon_images t icons suffix := by
        unfold Gen2.missing_icon_images
        simp [List.filter_cons, hexf]
      rw [hmt, hmc]
      simp [Prod.ext_iff]
      all_goals omega

/-- C3, counterexample: a library image whose icon exists but is STALE (the
source was modified at time 10, after the icon's time 5, and the icon was
rendered from an older content) is NOT converted by the maintenance pass —
the pass skips every image whose icon exists, stale or not, even with
`overwrite = true`. -/
theorem scan_skips_stale_icon_counterexample :
    Gen2.scan_icon_images_and_convert
        ⟨[⟨"a.png".toList, .raw 1, 10⟩], [],
         [⟨"a.ico".toList, .ico 0 ⟨true, false, "balanced".toList⟩ [16], 5⟩]⟩
        (some [16]) ⟨true, false, "balanced".toList⟩ [] true true 20
      = (⟨[⟨"a.png".toList, .raw 1, 10⟩], [],
          [⟨"a.ico".toList, .ico 0 ⟨true, false, "balanced".toList⟩ [16], 5⟩]⟩,
         ⟨1, 0, 0, 0, 0⟩) ∧
    (10 : Nat) > 5 := by
  refine ⟨by decide, by decide⟩

/-- C3, amended: a maintenance pass executes normalize, then the orphan
sweep, then converts exactly those top-level library images whose icon is
missing after the sweep — an existing icon is skipped even when stale.  The
final state and report are exactly: the normalized images and remaining
nested files; the swept icons followed by one freshly rendered icon per
missing image, in listing order; `scanned` = all image files, `converted` =
the missing ones, `errors` = 0, plus the sweep and normalize counts. -/
theorem scanIconImages_order_and_missing_only
    (st : Gen2.LibState) (szs : List Int) (opts : EncodeOpts)
    (suffix : List Char) (ov : Bool) (now : Nat)
    (hsz : Gen2.normalize_sizes (some szs) ≠ [])
    (hdist : (((Gen2.normalize_icon_images_library st.images st.nested).1.filter
        fun p => is_image_name p.name)).Pairwise
        fun a b => Gen2.icoName a.name suffix ≠ Gen2.icoName b.name suffix) :
    Gen2.scan_icon_images_and_convert st (some szs) opts suffix ov true now
      = (let norm := Gen2.normalize_icon_images_library st.images st.nested
         let sweep := Gen2.remove_orphan_icons norm.1 st.icons suffix
         let items := norm.1.filter fun p => is_image_name p.name
         let missing := Gen2.missing_icon_images items sweep.1 suffix
         (⟨norm.1, norm.2.1,
           sweep.1 ++ missing.map fun img =>
             Gen2.rendered_icon img opts (Gen2.normalize_sizes (some szs)) suffix now⟩,
          ⟨items.length, missing.length, 0, sweep.2, norm.2.2⟩)) := by
  unfold Gen2.scan_icon_images_and_convert Gen2.convert_many
  dsimp only
  simp only [Option.getD_some, if_pos]
  rw [List.filter_filter]
  have hps : (fun a : FSFile => is_image_name a.name && is_image_name a.name)
      = fun a : FSFile => is_image_name a.name := funext fun a => Bool.and_self _
  rw [hps,
    convert_fold_exact szs opts suffix ov now hsz _ _ 0 0 0 hdist]
  simp

/-- Witness for C3's amended theorem: a single library image with no icon
gets converted; the report shows one scan, one conversion, no errors. -/
theorem scanIconImages_order_and_missing_only_witness :
    Gen2.scan_icon_images_and_convert
        ⟨[⟨"a.png".toList, .raw 0, 1⟩], [], []⟩
        (some [16]) ⟨true, false, "balanced".toList⟩ [] true true 9
      = (⟨[⟨"a.png".toList, .raw 0, 1⟩], [],
          [⟨"a.ico".toList, .ico 0 ⟨true, false, "balanced".toList⟩ [16], 9⟩]⟩,
         ⟨1, 1, 0, 0, 0⟩) := by
  have h := scanIconImages_order_and_missing_only
    ⟨[⟨"a.png".toList, .raw 0, 1⟩], [], []⟩ [16]
    ⟨true, false, "balanced".toList⟩ [] true 9 (by decide) (by decide)
  rw [h]
  decide

/-- Unfolding equation for `maintenance_request` at positive fuel. -/
theorem maintenance_request_succ (fuel : Nat) (st : Gen1.MaintState)
    (reason : String) (mid : List String) (pf : Bool) :
    Gen1.maintenance_request (fuel + 1) st reason mid pf
      = if st.busy then { st with pending := some reason }
        else
          match Gen1.maintenance_scan st reason mid pf with
          | (st', some r) => Gen1.maintenance_request fuel st' r [] false
          | (st', none) => st' := rfl

/-- While the busy flag is set, each incoming request overwrites the pending
slot; a nonempty burst leaves exactly its last reason. -/
theorem maintenance_fold_pending (mid : List String) (r : String)
    (st : Gen1.MaintState) (h : st.busy = true) :
    (mid ++ [r]).foldl
        (fun s q => if s.busy then { s with pending := some q } else s) st
      = { st with pending := some r } := by
  induction mid generalizing st with
  | nil => simp [h]
  | cons m t ih =>
    simp only [List.cons_append, List.foldl_cons, if_pos h]
    exact ih { st with pending := some m } h

/-- From idle, a request whose pass sees no incoming requests runs exactly
one pass and ends idle with no pending reason. -/
theorem maintenance_request_idle_nil (fuel : Nat)
    (runs0 : List (String × Bool)) (reason : String) (pf : Bool) :
    Gen1.maintenance_request (fuel + 1) ⟨false, none, runs0⟩ reason [] pf
      = ⟨false, none, runs0 ++ [(reason, ! pf)]⟩ := by
  rw [maintenance_request_succ, if_neg (by simp)]
  rfl

/-- From idle, a request whose pass sees the burst `mid ++ [r]` runs the
requested pass, then exactly one rerun recorded with the last reason `r`,
and ends idle with no pending reason. -/
theorem maintenance_request_idle_concat (fuel : Nat)
    (runs0 : List (String × Bool)) (reason r : String) (mid : List String)
    (pf : Bool) :
    Gen1.maintenance_request (fuel + 2) ⟨false, none, runs0⟩ reason
        (mid ++ [r]) pf
      = ⟨false, none, runs0 ++ [(reason, ! pf), (r, true)]⟩ := by
  rw [maintenance_request_succ, if_neg (by simp)]
  unfold Gen1.maintenance_scan
  dsimp only
  rw [maintenance_fold_pending mid r _ rfl]
  dsimp only
  rw [maintenance_request_idle_nil]
  simp

/-- C4: if maintenance requests arrive while a pass runs, only the most
recent survives: from idle, `request(reason)` with the burst `mid ++ [r]`
arriving mid-pass executes the requested pass and then exactly one rerun,
recorded with the last reason `r`; in particular `request("a")` with
`"b"`, `"c"` arriving mid-pass records exactly the passes `"a"` then `"c"`. -/
theorem maintenanceRequest_coalesces_to_last_reason :
    (∀ (n : Nat) (runs0 : List (String × Bool)) (reason r : String)
        (mid : List String) (pf : Bool),
      Gen1.maintenance_request (n + 2) ⟨false, none, runs0⟩ reason
          (mid ++ [r]) pf
        = ⟨false, none, runs0 ++ [(reason, ! pf), (r, true)]⟩) ∧
    Gen1.maintenance_request 2 ⟨false, none, []⟩ "a" ["b", "c"] false
      = ⟨false, none, [("a", true), ("c", true)]⟩ := by
  refine ⟨fun n runs0 reason r mid pf =>
    maintenance_request_idle_concat n runs0 reason r mid pf, ?_⟩
  have h := maintenance_request_idle_concat 0 [] "a" "c" ["b"] false
  simpa using h

/-- C6: a pass body that raises is caught and the `finally` block still
resets the busy flag, so the maintenance call ends not-busy with no pending
reason, and a subsequent request immediately executes a fresh pass — the
state machine never stays busy after a failed pass. -/
theorem maintenanceScan_failure_resets_busy
    (n : Nat) (runs0 : List (String × Bool)) (reason : String)
    (mid : List String) :
    (Gen1.maintenance_request (n + 2) ⟨false, none, runs0⟩ reason mid true).busy
      = false ∧
    (Gen1.maintenance_request (n + 2) ⟨false, none, runs0⟩ reason mid true).pending
      = none ∧
    (∀ r' : String,
      Gen1.maintenance_request 1
          (Gen1.maintenance_request (n + 2) ⟨false, none, runs0⟩ reason mid true)
          r' [] false
        = ⟨false, none,
           (Gen1.maintenance_request (n + 2) ⟨false, none, runs0⟩ reason mid
             true).runs ++ [(r', true)]⟩) := by
  rcases List.eq_nil_or_concat mid with rfl | ⟨mid', r, rfl⟩
  · have h : Gen1.maintenance_request (n + 2) ⟨false, none, runs0⟩ reason [] true
        = ⟨false, none, runs0 ++ [(reason, false)]⟩ := by
      have := maintenance_request_idle_nil (n + 1) runs0 reason true
      simpa using this
    rw [h]
    refine ⟨rfl, rfl, fun r' => ?_⟩
    have := maintenance_request_idle_nil 0 (runs0 ++ [(reason, false)]) r' false
    simpa using this
  · simp only [List.concat_eq_append]
    have h : Gen1.maintenance_request (n + 2) ⟨false, none, runs0⟩ reason
        (mid' ++ [r]) true
        = ⟨false, none, runs0 ++ [(reason, false), (r, true)]⟩ := by
      have := maintenance_request_idle_concat n runs0 reason r mid' true
      simpa using this
    rw [h]
    refine ⟨rfl, rfl, fun r' => ?_⟩
    have := maintenance_request_idle_nil 0
      (runs0 ++ [(reason, false), (r, true)]) r' false
    simpa using this

/-- C10: the `allowed_exts` argument has no effect on the result of
`canonical_library_filename` — the source only tests it in a branch whose
body is `pass`. -/
theorem canonicalLibraryFilename_ignores_allowed_exts :
    ∀ (n : List Char) (e₁ e₂ : List (List Char)),
      GenName.canonical_library_filename n e₁
        = GenName.canonical_library_filename n e₂ := by
  intro n e₁ e₂
  simp only [GenName.canonical_library_filename, ite_self]

end Iconner
